import Mathlib

/-
Verification of the PCP archive metadata catalog (src/src/libpcp/src/logmeta.c).

The development shallowly embeds the catalog's data model and operations:
instance-domain history chains (addindom / searchindom / __pmLogGetInDom),
label history chains (addlabel / samelabelset / discard_dup_labelsets /
check_dup_labels / __pmLogLookupLabel), the descriptor store (__pmLogAddDesc),
the help-text store (addtext / __pmLogLookupText), and the byte-level
metadata loader (__pmLogLoadMeta).

Primitives of the repository that are not part of the given source file
(timestamp comparison, hash table, wire constants, __pmLogLoadInDom) are
modelled from the specification; each such definition carries a doc comment
saying so.  Machine integers are modelled as Nat (unsigned 32-bit words on
the wire) and Int (C int / int64 values after sign decoding).
-/

namespace LogMeta

/-- Archive timestamp (struct __pmTimestamp): signed seconds and nanoseconds. -/
structure PmTimestamp where
  sec : Int
  nsec : Int
deriving DecidableEq, Repr

/-- Modelled from the spec: __pmTimestampCmp is not under src/; the spec fixes
timestamp comparison as lexicographic on (sec, then nsec), with the usual C
negative / zero / positive result convention. -/
def timestampCmp (a b : PmTimestamp) : Int :=
  if a.sec < b.sec then -1
  else if b.sec < a.sec then 1
  else if a.nsec < b.nsec then -1
  else if b.nsec < a.nsec then 1
  else 0

/- ===================== Instance domain history store ===================== -/

/-- Informational return of addindom when a duplicate snapshot was suppressed.
Modelled from the spec: PMLOGPUTINDOM_DUP is a positive status defined outside
src/; the only facts used are that it is positive and distinct from 0. -/
def PMLOGPUTINDOM_DUP : Int := 1

/-- Modelled from the spec: distinct negative error codes (pmerr / pmapi
headers are not under src/); the exact numeric values are immaterial, only
their negativity and distinctness matter. -/
def PM_ERR_LOGREC : Int := -12355

/-- See PM_ERR_LOGREC. -/
def PM_ERR_LOGCHANGETYPE : Int := -12357

/-- See PM_ERR_LOGREC. -/
def PM_ERR_LOGCHANGESEM : Int := -12358

/-- See PM_ERR_LOGREC. -/
def PM_ERR_LOGCHANGEINDOM : Int := -12359

/-- See PM_ERR_LOGREC. -/
def PM_ERR_LOGCHANGEUNITS : Int := -12360

/-- See PM_ERR_LOGREC. -/
def PM_ERR_INDOM_LOG : Int := -12361

/-- See PM_ERR_LOGREC. -/
def PM_ERR_INST_LOG : Int := -12362

/-- See PM_ERR_LOGREC. -/
def PM_ERR_PMID_LOG : Int := -12363

/-- See PM_ERR_LOGREC. -/
def PM_ERR_NOLABELS : Int := -12364

/-- See PM_ERR_LOGREC. -/
def PM_ERR_TEXT : Int := -12365

/-- One cached instance-domain snapshot (struct __pmLogInDom): a timestamp and
the parallel instlist/namelist arrays, modelled as one list of (id, name)
pairs; names are byte strings.  The buf/allinbuf ownership bookkeeping of the
C structure has no observable content in the model. -/
structure LogInDom where
  stamp : PmTimestamp
  insts : List (Int × List Nat)
deriving DecidableEq, Repr

/-- sameinst / sameindom: two snapshots are the same when numinst agrees and
the (id, name) pairs agree elementwise; on lists of pairs this is exactly
list equality. -/
def sameindom (a b : LogInDom) : Bool := a.insts == b.insts

/-- The inner step of addinsts: place p into an already-sorted prefix, after
every element whose id is ≤ p's id (the C insertion sort shifts elements
while id < instlist[j-1]). -/
def insertInst (p : Int × List Nat) : List (Int × List Nat) → List (Int × List Nat)
  | [] => [p]
  | q :: rest => if q.1 ≤ p.1 then q :: insertInst p rest else p :: q :: rest

/-- addinsts: stable insertion sort of the instance arrays, ascending by
instance id, processing the input left to right. -/
def addinsts (l : List (Int × List Nat)) : List (Int × List Nat) :=
  l.foldl (fun acc p => insertInst p acc) []

/-- The do-while scan of addindom over the run of equal timestamps: starting
at the first cached node whose stamp equals the new node's stamp, look for a
content-duplicate, stopping at the first node whose stamp differs.  Returns
the nodes scanned before the duplicate, the duplicate, and everything after
it. -/
def findDupInRun (idp : LogInDom) :
    List LogInDom → Option (List LogInDom × LogInDom × List LogInDom)
  | [] => none
  | c :: rest =>
    if timestampCmp c.stamp idp.stamp = 0 then
      if sameindom c idp then some ([], c, rest)
      else
        match findDupInRun idp rest with
        | some (pre, d, post) => some (c :: pre, d, post)
        | none => none
    else none

/-- The chain walk of addindom (logmeta.c lines 180-276): insert the new node
before the first cached node with a strictly earlier stamp; at a run of equal
stamps, either report a duplicate (relocating the existing duplicate node to
the head of the run) or insert the new node at the head of the run. -/
def addindomChain (idp : LogInDom) : List LogInDom → Int × List LogInDom
  | [] => (0, [idp])
  | c :: rest =>
    if timestampCmp c.stamp idp.stamp < 0 then
      (0, idp :: c :: rest)
    else if timestampCmp c.stamp idp.stamp = 0 then
      match findDupInRun idp (c :: rest) with
      | some (pre, d, post) => (PMLOGPUTINDOM_DUP, d :: (pre ++ post))
      | none => (0, idp :: c :: rest)
    else
      let r := addindomChain idp rest
      (r.1, c :: r.2)

/-- addindom: sort the incoming instance arrays (addinsts), then install the
snapshot in the per-indom chain of the catalog.  The catalog maps an indom to
its chain; an absent hash entry is the empty chain (the C code never stores
an empty chain). -/
def addindom (cat : Nat → List LogInDom) (indom : Nat) (stamp : PmTimestamp)
    (insts : List (Int × List Nat)) : Int × (Nat → List LogInDom) :=
  let r := addindomChain ⟨stamp, addinsts insts⟩ (cat indom)
  (r.1, fun i => if i = indom then r.2 else cat i)

/-- searchindom: hash miss is not-found; with no timestamp return the chain
head; with a timestamp return the first node at or earlier than the request.
-/
def searchindom (cat : Nat → List LogInDom) (indom : Nat)
    (tsp : Option PmTimestamp) : Option LogInDom :=
  match cat indom with
  | [] => none
  | idp :: rest =>
    match tsp with
    | none => some idp
    | some t => (idp :: rest).find? (fun g => decide (timestampCmp g.stamp t ≤ 0))

/-- __pmLogGetInDom: surface the snapshot found by searchindom, or
PM_ERR_INDOM_LOG.  The instlist/namelist out-parameters are the instance list
of the result; the status is numinst. -/
def pmLogGetInDom (cat : Nat → List LogInDom) (indom : Nat)
    (tsp : Option PmTimestamp) : Int × List (Int × List Nat) :=
  match searchindom cat indom tsp with
  | none => (PM_ERR_INDOM_LOG, [])
  | some idp => ((idp.insts.length : Int), idp.insts)

/- ========================= Label history store ========================= -/

/-- Modelled from the spec: PM_LABEL_* flag bits (pmapi.h is not under src/).
Only their being distinct single bits matters. -/
def PM_LABEL_CONTEXT : Nat := 1

/-- See PM_LABEL_CONTEXT; COMPOUND is bit 6. -/
def PM_LABEL_COMPOUND : Nat := 64

/-- See PM_LABEL_CONTEXT; OPTIONAL is bit 7. -/
def PM_LABEL_OPTIONAL : Nat := 128

/-- Modelled from the spec: PM_ID_NULL is the all-ones 32-bit identifier. -/
def PM_ID_NULL : Nat := 4294967295

/-- The label type key used by the label hash: the incoming type with the
COMPOUND and OPTIONAL bits masked off (within the 32-bit word). -/
def labelType (type : Nat) : Nat := type &&& 4294967103

/-- The label identifier key: forced to PM_ID_NULL for context labels. -/
def labelIdent (type ident : Nat) : Nat :=
  if labelType type = PM_LABEL_CONTEXT then PM_ID_NULL else ident

/-- One pmLabel: name and value described as offset/length ranges into the
owning set's json buffer, plus flags.  Modelled from the spec: the concrete
bitfield layout of pmLabel is not under src/; the fields are as the spec
lists them. -/
structure PmLabel where
  name : Nat
  namelen : Nat
  flags : Nat
  value : Nat
  valuelen : Nat
deriving DecidableEq, Repr

/-- One pmLabelSet: instance, json buffer (bytes), and the label ranges.
nlabels is kept separately from the list as in C (it may be ≤ 0, an error
code recorded by the decoder, with no labels array). -/
structure PmLabelSet where
  inst : Int
  jsonlen : Int
  json : List Nat
  nlabels : Int
  labels : List PmLabel
deriving DecidableEq, Repr

/-- A byte range of a json buffer, as read by memcmp(&json[off], len). -/
def jsonRange (json : List Nat) (off len : Nat) : List Nat :=
  (json.drop off).take len

/-- samelabelset: the sets agree on inst and nlabels, and every label of set1
has a name match in set2 (first name match wins) whose value bytes also
agree.  The C loops run for indices below nlabels, hence the take. -/
def samelabelset (set1 set2 : PmLabelSet) : Bool :=
  set1.inst == set2.inst && set1.nlabels == set2.nlabels &&
  (set1.labels.take set1.nlabels.toNat).all (fun l1 =>
    match (set2.labels.take set2.nlabels.toNat).find? (fun l2 =>
        l1.namelen == l2.namelen &&
        jsonRange set1.json l1.name l1.namelen == jsonRange set2.json l2.name l2.namelen) with
    | some l2 =>
        l1.valuelen == l2.valuelen &&
        jsonRange set1.json l1.value l1.valuelen == jsonRange set2.json l2.value l2.valuelen
    | none => false)

/-- One cached label snapshot group (struct __pmLogLabelSet). -/
structure LogLabelSet where
  stamp : PmTimestamp
  type : Nat
  ident : Nat
  nsets : Int
  labelsets : List PmLabelSet
deriving DecidableEq, Repr

/-- The label catalog: the two-level hash (label type to identifier to chain),
as a total map; an absent entry is the empty chain. -/
def LabelCat : Type := Nat → Nat → List LogLabelSet

/-- The chain walk of addlabel (logmeta.c lines 349-366): walk past every
cached group whose stamp is not strictly earlier (so also past groups with an
equal stamp) and insert before the first strictly earlier one. -/
def addlabelChain (idp : LogLabelSet) : List LogLabelSet → List LogLabelSet
  | [] => [idp]
  | c :: rest =>
    if timestampCmp c.stamp idp.stamp < 0 then idp :: c :: rest
    else c :: addlabelChain idp rest

/-- addlabel: build the group (the stored node keeps the unmasked type and
ident), key the hash by the masked type and forced ident, install a fresh
chain when the lookup fails (which includes an existing head group with
nsets ≤ 0: the C code then hash-adds a second node for the same key, which
shadows the old one for every later search - modelled as replacement),
otherwise insert into the existing chain. -/
def addlabel (cat : LabelCat) (type ident : Nat) (nsets : Int)
    (labelsets : List PmLabelSet) (stamp : PmTimestamp) : Int × LabelCat :=
  let idp : LogLabelSet := ⟨stamp, type, ident, nsets, labelsets⟩
  let tk := labelType type
  let ik := labelIdent type ident
  let install : LabelCat := fun t i => if t = tk ∧ i = ik then [idp] else cat t i
  match cat tk ik with
  | [] => (0, install)
  | c :: rest =>
    if c.nsets ≤ 0 then (0, install)
    else (0, fun t i => if t = tk ∧ i = ik then addlabelChain idp (c :: rest) else cat t i)

/-- discard_dup_labelsets: drop from idp every set (among its first nsets
sets) that samelabelset-matches some set of idpNext, decrementing nsets per
removal.  When nsets equals the number of sets (as for every group the
decoder builds) this filters the set list. -/
def discard_dup_labelsets (idp idpNext : LogLabelSet) : LogLabelSet :=
  let scanned := idp.labelsets.take idp.nsets.toNat
  let kept := scanned.filter (fun s =>
    !((idpNext.labelsets.take idpNext.nsets.toNat).any (fun s2 => samelabelset s s2)))
  { idp with labelsets := kept ++ idp.labelsets.drop idp.nsets.toNat,
             nsets := idp.nsets - ((scanned.length : Int) - (kept.length : Int)) }

/-- The per-chain pass of check_dup_labels (logmeta.c lines 498-524): compare
each group against its immediate older neighbour, unlinking groups whose set
count drops to zero; the last group is never touched. -/
def checkDupChain : List LogLabelSet → List LogLabelSet
  | [] => []
  | [g] => [g]
  | g :: gnext :: rest =>
    let g2 := discard_dup_labelsets g gnext
    if g2.nsets = 0 then checkDupChain (gnext :: rest)
    else g2 :: checkDupChain (gnext :: rest)

/-- check_dup_labels: run the dedup pass over every (type, ident) chain. -/
def check_dup_labels (cat : LabelCat) : LabelCat :=
  fun t i => checkDupChain (cat t i)

/-- __pmLogLookupLabel: hash misses give PM_ERR_NOLABELS; with a timestamp
walk to the first group at or before it, returning 0 with the out-pointer
unset (modelled as none) when the whole chain is later than the request;
otherwise return the group's nsets and its sets. -/
def pmLogLookupLabel (cat : LabelCat) (type ident : Nat)
    (tsp : Option PmTimestamp) : Int × Option (List PmLabelSet) :=
  match cat (labelType type) (labelIdent type ident) with
  | [] => (PM_ERR_NOLABELS, none)
  | c :: rest =>
    match tsp with
    | none => (c.nsets, some c.labelsets)
    | some t =>
      match (c :: rest).find? (fun g => decide (timestampCmp g.stamp t ≤ 0)) with
      | none => (0, none)
      | some g => (g.nsets, some g.labelsets)

/- ===================== Descriptor and text stores ===================== -/

/-- pmUnits, as the six subfields compared by __pmLogAddDesc.  Modelled from
the spec: pmapi.h is not under src/; the spec describes units as a packed
u32 of dimension/scale fields. -/
structure PmUnits where
  dimSpace : Nat
  dimTime : Nat
  dimCount : Nat
  scaleSpace : Nat
  scaleTime : Nat
  scaleCount : Nat
deriving DecidableEq, Repr

/-- Extraction of the six 4-bit unit fields from the wire word.  Modelled
from the spec ("units: packed u32"); only injectivity on the packed fields
matters to the claims. -/
def unitsOfWord (w : Nat) : PmUnits :=
  ⟨w / 268435456 % 16, w / 16777216 % 16, w / 1048576 % 16,
   w / 65536 % 16, w / 4096 % 16, w / 256 % 16⟩

/-- pmDesc: metric descriptor.  Field order per the spec's data model
(pmapi.h is not under src/).  pmid and indom are 32-bit words; type and sem
are C ints. -/
structure PmDesc where
  pmid : Nat
  type : Int
  sem : Int
  indom : Nat
  units : PmUnits
deriving DecidableEq, Repr

/-- Modelled from the spec: __pmHashAdd is the opaque hash-insert primitive
(hash.c is not under src/).  Its success value is 1, as logmeta.c's own
comments state three times ("__pmHashAdd returns 1 for success, but we want
0"). -/
def pmHashAddOk : Int := 1

/-- __pmLogAddDesc: an absent pmid stores a copy and returns the hash-insert
status; a present pmid is checked field group by field group in the order
type, sem, indom, units, returning the first mismatch's error, or 0 with the
store untouched when all agree. -/
def pmLogAddDesc (newdp : PmDesc) (store : Nat → Option PmDesc) :
    Int × (Nat → Option PmDesc) :=
  match store newdp.pmid with
  | some olddp =>
    if newdp.type ≠ olddp.type then (PM_ERR_LOGCHANGETYPE, store)
    else if newdp.sem ≠ olddp.sem then (PM_ERR_LOGCHANGESEM, store)
    else if newdp.indom ≠ olddp.indom then (PM_ERR_LOGCHANGEINDOM, store)
    else if newdp.units.dimSpace ≠ olddp.units.dimSpace ∨
            newdp.units.dimTime ≠ olddp.units.dimTime ∨
            newdp.units.dimCount ≠ olddp.units.dimCount ∨
            newdp.units.scaleSpace ≠ olddp.units.scaleSpace ∨
            newdp.units.scaleTime ≠ olddp.units.scaleTime ∨
            newdp.units.scaleCount ≠ olddp.units.scaleCount then
      (PM_ERR_LOGCHANGEUNITS, store)
    else (0, store)
  | none =>
    (pmHashAddOk, fun p => if p = newdp.pmid then some newdp else store p)

/-- Modelled from the spec: PM_TEXT_* flag bits (pmapi.h is not under src/). -/
def PM_TEXT_ONELINE : Nat := 1

/-- See PM_TEXT_ONELINE. -/
def PM_TEXT_HELP : Nat := 2

/-- See PM_TEXT_ONELINE. -/
def PM_TEXT_PMID : Nat := 4

/-- See PM_TEXT_ONELINE. -/
def PM_TEXT_INDOM : Nat := 8

/-- See PM_TEXT_ONELINE. -/
def PM_TEXT_DIRECT : Nat := 16

/-- The text catalog: text type to identifier to the stored text bytes. -/
def TextCat : Type := Nat → Nat → Option (List Nat)

/-- __pmLogLookupText: searches under the type with the DIRECT bit masked
off; misses at either hash level are errors. -/
def pmLogLookupText (texts : TextCat) (ident ttype : Nat) : Int × Option (List Nat) :=
  match texts (ttype &&& 4294967279) ident with
  | none => (PM_ERR_TEXT, none)
  | some buf => (0, some buf)

/-- addtext: a failed lookup inserts the text under the raw (unmasked) type;
a successful lookup replaces the stored text when it differs (the C code
replaces under the raw type as well) and is a no-op when identical. -/
def addtext (texts : TextCat) (ident ttype : Nat) (buffer : List Nat) :
    Int × TextCat :=
  match (pmLogLookupText texts ident ttype).2 with
  | none => (0, fun t i => if t = ttype ∧ i = ident then some buffer else texts t i)
  | some old =>
    if old ≠ buffer then
      (0, fun t i => if t = ttype ∧ i = ident then some buffer else texts t i)
    else (0, texts)

/- ========================= Byte-level metadata loader ==================== -/

/-- Modelled from the spec: the metadata record type codes (libpcp.h is not
under src/); only their distinctness matters to the loader's dispatch. -/
def TYPE_DESC : Nat := 1

/-- See TYPE_DESC. -/
def TYPE_INDOM_V2 : Nat := 2

/-- See TYPE_DESC. -/
def TYPE_LABEL_V2 : Nat := 3

/-- See TYPE_DESC. -/
def TYPE_TEXT : Nat := 4

/-- See TYPE_DESC. -/
def TYPE_INDOM : Nat := 5

/-- See TYPE_DESC. -/
def TYPE_INDOM_DELTA : Nat := 6

/-- See TYPE_DESC. -/
def TYPE_LABEL : Nat := 7

/-- Modelled from the spec: decoder hard limit on a labelset's json length. -/
def PM_MAXLABELJSONLEN : Int := 65536

/-- Modelled from the spec: decoder hard limit on nlabels per labelset. -/
def PM_MAXLABELS : Int := 254

/-- Big-endian bytes of a 32-bit word (the htonl side of the codec). -/
def be32 (w : Nat) : List Nat :=
  [w / 16777216 % 256, w / 65536 % 256, w / 256 % 256, w % 256]

/-- Read one 32-bit big-endian word from the stream (the ntohl side);
none when fewer than four bytes remain (a short read). -/
def rd32 : List Nat → Option (Nat × List Nat)
  | b0 :: b1 :: b2 :: b3 :: rest =>
    some (((b0 * 256 + b1) * 256 + b2) * 256 + b3, rest)
  | _ => none

/-- Sign decoding of a 32-bit word into a C int. -/
def toInt32 (w : Nat) : Int :=
  if w < 2147483648 then (w : Int) else (w : Int) - 4294967296

/-- Sign decoding of a 64-bit word into a C int64. -/
def toInt64 (w : Nat) : Int :=
  if w < 9223372036854775808 then (w : Int) else (w : Int) - 18446744073709551616

/-- Read a 32-bit big-endian word at offset k of an in-memory buffer; bytes
beyond the buffer (which C would read as heap garbage) are modelled as 0. -/
def rd32At (p : List Nat) (k : Nat) : Nat :=
  ((p.getD k 0 * 256 + p.getD (k + 1) 0) * 256 + p.getD (k + 2) 0) * 256 + p.getD (k + 3) 0

/-- Read a 16-bit big-endian word at offset k of an in-memory buffer. -/
def rd16At (p : List Nat) (k : Nat) : Nat :=
  p.getD k 0 * 256 + p.getD (k + 1) 0

/-- Read a 64-bit big-endian word at offset k of an in-memory buffer. -/
def rd64At (p : List Nat) (k : Nat) : Nat :=
  rd32At p k * 4294967296 + rd32At p (k + 4)

/-- A NUL-terminated byte string at an offset of a buffer. -/
def cstrAt (p : List Nat) (off : Nat) : List Nat :=
  (p.drop off).takeWhile (fun b => b ≠ 0)

/-- An fread of exactly n bytes: none models a short read. -/
def takeRead (n : Nat) (l : List Nat) : Option (List Nat × List Nat) :=
  if l.length < n then none else some (l.take n, l.drop n)

/-- The in-memory catalog built by the loader. -/
structure LoadState where
  descs : Nat → Option PmDesc
  indoms : Nat → List LogInDom
  labels : LabelCat
  texts : TextCat
  numpmid : Nat

/-- The empty catalog at the start of a load. -/
def initState : LoadState :=
  ⟨fun _ => none, fun _ => [], fun _ _ => [], fun _ _ => none, 0⟩

/-- The name loop of the DESC branch: numnames length-prefixed names are read
and handed to __pmLogAddPMNSNode (the PMNS tree is outside the model and the
PM_ERR_PMID duplicate is downgraded to success, so only the stream position
is observable); none models a short read. -/
def readNames : Nat → List Nat → Option (List Nat)
  | 0, bytes => some bytes
  | k + 1, bytes =>
    match rd32 bytes with
    | none => none
    | some (lenw, r) =>
      let len := (toInt32 lenw).toNat
      if r.length < len then none else readNames k (r.drop len)

/-- Modelled from the spec: __pmLogLoadInDom is not under src/.  Decodes an
INDOM/INDOM_V2 payload: a timestamp in the version's encoding, the indom,
numinst, then parallel id and name-offset arrays followed by the packed
NUL-terminated name bytes; none models a decode failure. -/
def loadInDom (htype : Nat) (p : List Nat) :
    Option (PmTimestamp × Nat × Int × List (Int × List Nat)) :=
  let sk : PmTimestamp × Nat :=
    if htype = TYPE_INDOM_V2 then (⟨toInt32 (rd32At p 0), toInt32 (rd32At p 4) * 1000⟩, 8)
    else (⟨toInt64 (rd64At p 0), toInt32 (rd32At p 8)⟩, 12)
  let k0 := sk.2
  if p.length < k0 + 8 then none
  else
    let indom := rd32At p k0
    let numinst := toInt32 (rd32At p (k0 + 4))
    if numinst ≤ 0 then some (sk.1, indom, numinst, [])
    else
      let n := numinst.toNat
      let idsOff := k0 + 8
      let offsOff := idsOff + 4 * n
      let strsOff := offsOff + 4 * n
      if p.length < strsOff then none
      else
        some (sk.1, indom, numinst,
          (List.range n).map (fun i =>
            (toInt32 (rd32At p (idsOff + 4 * i)),
             cstrAt p (strsOff + rd32At p (offsOff + 4 * i)))))

/-- The pmLabel array read of the LABEL branch: count fixed-size structures
starting at offset k (the swab of each is a byte-layout primitive; the field
layout is modelled from the spec's 12-byte description). -/
def readPmLabels (p : List Nat) (k : Nat) : Nat → List PmLabel
  | 0 => []
  | n + 1 =>
    ⟨rd16At p k, rd16At p (k + 2), rd32At p (k + 4), rd16At p (k + 8), rd16At p (k + 10)⟩ ::
    readPmLabels p (k + 12) n

/-- The per-set loop of the LABEL branch (logmeta.c lines 942-1004): inst,
jsonlen (bounds-checked against PM_MAXLABELJSONLEN), the json bytes, nlabels
(when positive, bounds-checked against PM_MAXLABELS and the record length),
then the label structures; none models the PM_ERR_LOGREC aborts. -/
def readLabelSets (p : List Nat) (rlen : Nat) : Nat → Nat → Option (List PmLabelSet)
  | _, 0 => some []
  | k, n + 1 =>
    let inst := toInt32 (rd32At p k)
    let jsonlen := toInt32 (rd32At p (k + 4))
    if jsonlen < 0 ∨ PM_MAXLABELJSONLEN < jsonlen then none
    else
      let json := jsonRange p (k + 8) jsonlen.toNat
      let k2 := k + 8 + jsonlen.toNat
      let nlabels := toInt32 (rd32At p k2)
      if 0 < nlabels ∧ (PM_MAXLABELS < nlabels ∨ (rlen : Int) < (k2 : Int) + 4 + nlabels * 12) then
        none
      else
        let labs := if 0 < nlabels then readPmLabels p (k2 + 4) nlabels.toNat else []
        let k3 := k2 + 4 + (if 0 < nlabels then nlabels.toNat * 12 else 0)
        match readLabelSets p rlen k3 n with
        | none => none
        | some sets => some (⟨inst, jsonlen, json, nlabels, labs⟩ :: sets)

/-- The DESC payload read: the sizeof(pmDesc) bytes of the record decoded
into a descriptor, each field byte-swapped; none models a short read (the C
code reads the whole struct with one fread, so only the abort outcome of a
short read is observable, not how many bytes it consumed). -/
def rdDesc (bytes : List Nat) : Option (PmDesc × List Nat) :=
  match rd32 bytes with
  | none => none
  | some (pmidw, b1) =>
    match rd32 b1 with
    | none => none
    | some (tw, b2) =>
      match rd32 b2 with
      | none => none
      | some (sw, b3) =>
        match rd32 b3 with
        | none => none
        | some (iw, b4) =>
          match rd32 b4 with
          | none => none
          | some (uw, b5) =>
            some (⟨pmidw, toInt32 tw, toInt32 sw, iw, unitsOfWord uw⟩, b5)

/-- The outcome of one record's dispatch: abort the load with a status, skip
straight to the next header without reading the trailer (the continue paths
of the TEXT branch), or fall through to the trailer check. -/
inductive StepRes where
  | abort (sts : Int) (st : LoadState)
  | skipText (rest : List Nat) (st : LoadState)
  | toTrailer (rest : List Nat) (st : LoadState)

/-- The per-record dispatch of __pmLogLoadMeta on h.type (logmeta.c lines
748-1067): DESC (descriptor, then names), INDOM/INDOM_V2, LABEL/LABEL_V2,
TEXT (whose malformed-type paths continue without reading the trailer), and
the seek-past branch for unknown types. -/
def processRec (typew : Nat) (rlen : Nat) (bytes : List Nat) (st : LoadState) : StepRes :=
  if typew = TYPE_DESC then
    let st1 : LoadState := { st with numpmid := st.numpmid + 1 }
    match rdDesc bytes with
    | none => .abort PM_ERR_LOGREC st1
    | some (desc, r1) =>
      let ad := pmLogAddDesc desc st1.descs
      if ad.1 < 0 then .abort ad.1 st1
      else
        let st2 : LoadState := { st1 with descs := ad.2 }
        match rd32 r1 with
        | none => .abort PM_ERR_LOGREC st2
        | some (nn, r2) =>
          match readNames (toInt32 nn).toNat r2 with
          | none => .abort PM_ERR_LOGREC st2
          | some r3 => .toTrailer r3 st2
  else if typew = TYPE_INDOM ∨ typew = TYPE_INDOM_V2 then
    match takeRead rlen bytes with
    | none => .abort PM_ERR_LOGREC st
    | some (p, r1) =>
      match loadInDom typew p with
      | none => .abort PM_ERR_LOGREC st
      | some (stamp, indom, numinst, insts) =>
        if 0 < numinst then
          .toTrailer r1 { st with indoms := (addindom st.indoms indom stamp insts).2 }
        else .toTrailer r1 st
  else if typew = TYPE_LABEL ∨ typew = TYPE_LABEL_V2 then
    match takeRead rlen bytes with
    | none => .abort PM_ERR_LOGREC st
    | some (p, r1) =>
      let sk : PmTimestamp × Nat :=
        if typew = TYPE_LABEL_V2 then (⟨toInt32 (rd32At p 0), toInt32 (rd32At p 4) * 1000⟩, 8)
        else (⟨toInt64 (rd64At p 0), toInt32 (rd32At p 8)⟩, 12)
      let ltype := rd32At p sk.2
      let lident := rd32At p (sk.2 + 4)
      let nsets := toInt32 (rd32At p (sk.2 + 8))
      match readLabelSets p rlen (sk.2 + 12) nsets.toNat with
      | none => .abort PM_ERR_LOGREC st
      | some sets =>
        let al := addlabel st.labels ltype lident nsets sets sk.1
        if al.1 < 0 then .abort al.1 st
        else .toTrailer r1 { st with labels := al.2 }
  else if typew = TYPE_TEXT then
    match takeRead rlen bytes with
    | none => .abort PM_ERR_LOGREC st
    | some (p, r1) =>
      let ttype := rd32At p 0
      if ttype &&& (PM_TEXT_ONELINE ||| PM_TEXT_HELP) = 0 then .skipText r1 st
      else if ttype &&& PM_TEXT_INDOM ≠ 0 then
        let at2 := addtext st.texts (rd32At p 4) ttype (cstrAt p 8)
        if at2.1 < 0 then .abort at2.1 { st with texts := at2.2 }
        else .toTrailer r1 { st with texts := at2.2 }
      else if ttype &&& PM_TEXT_PMID ≠ 0 then
        let at2 := addtext st.texts (rd32At p 4) ttype (cstrAt p 8)
        if at2.1 < 0 then .abort at2.1 { st with texts := at2.2 }
        else .toTrailer r1 { st with texts := at2.2 }
      else .skipText r1 st
  else .toTrailer (bytes.drop rlen) st

/-- The record loop of __pmLogLoadMeta: read the 8-byte header (a short read
is a clean EOF), reject non-positive lengths, dispatch the record, then read
and check the 4-byte trailer (short read or mismatch is PM_ERR_LOGREC) -
except after the TEXT-skip paths, which go straight to the next header.  The
fuel argument only bounds recursion; every iteration consumes at least the
8 header bytes, so stream length + 1 is always sufficient. -/
def loadLoop : Nat → List Nat → LoadState → Int × LoadState
  | 0, _, st => (0, st)
  | fuel + 1, bytes, st =>
    match rd32 bytes with
    | none => (0, st)
    | some (lenw, r1) =>
      match rd32 r1 with
      | none => (0, st)
      | some (typew, r2) =>
        if toInt32 lenw ≤ 0 then (PM_ERR_LOGREC, st)
        else
          match processRec typew (toInt32 lenw - 12).toNat r2 st with
          | .abort sts st2 => (sts, st2)
          | .skipText rest st2 => loadLoop fuel rest st2
          | .toTrailer rest st2 =>
            match rd32 rest with
            | none => (PM_ERR_LOGREC, st2)
            | some (checkw, rest2) =>
              if checkw = lenw then loadLoop fuel rest2 st2
              else (PM_ERR_LOGREC, st2)

/-- __pmLogLoadMeta: run the record loop over the metadata stream (positioned
after the label block), then run check_dup_labels, and finally turn a clean
load that saw no descriptors into PM_ERR_LOGREC. -/
def pmLogLoadMeta (bytes : List Nat) : Int × LoadState :=
  let r := loadLoop (bytes.length + 1) bytes initState
  let st2 : LoadState := { r.2 with labels := check_dup_labels r.2.labels }
  if r.1 = 0 ∧ st2.numpmid = 0 then (PM_ERR_LOGREC, st2) else (r.1, st2)

/-- The per-chain ordering invariant: of two nodes with the earlier one
first, the later node's stamp is not greater, and nodes with equal stamps
are never content-equal. -/
def indomChainRel (a b : LogInDom) : Prop :=
  timestampCmp b.stamp a.stamp ≤ 0 ∧
  (timestampCmp a.stamp b.stamp = 0 → sameindom a b = false)

/-- Two adjacent label groups share no content-equal set: no set of the
later group a samelabelset-matches any set of the earlier group b. -/
def noSharedSet (a b : LogLabelSet) : Prop :=
  ∀ s ∈ a.labelsets, ∀ s2 ∈ b.labelsets, samelabelset s s2 = false

/-- A sequence of addindom calls applied to a catalog, first call first. -/
def runAddIndoms : List (Nat × PmTimestamp × List (Int × List Nat)) →
    (Nat → List LogInDom) → (Nat → List LogInDom)
  | [], cat => cat
  | c :: rest, cat => runAddIndoms rest ((addindom cat c.1 c.2.1 c.2.2).2)

/- ============== Record encoders and concrete example values ============== -/

/-- Encoder for a DESC record carrying no names: header (total length 36,
type DESC), the five descriptor words, numnames = 0, trailer. -/
def descRecBytes (pmid typew semw indomw unitsw : Nat) : List Nat :=
  be32 36 ++ be32 TYPE_DESC ++ be32 pmid ++ be32 typew ++ be32 semw ++
  be32 indomw ++ be32 unitsw ++ be32 0 ++ be32 36

/-- Encoder for a TEXT record: header, text type word, identifier word, the
NUL-terminated text, trailer. -/
def textRecBytes (ttype ident : Nat) (txt : List Nat) : List Nat :=
  be32 (21 + txt.length) ++ be32 TYPE_TEXT ++ be32 ttype ++ be32 ident ++
  txt ++ [0] ++ be32 (21 + txt.length)

/-- A metadata stream of three DESC records: pmid 1, then pmid 1 again with a
changed type field, then pmid 2. -/
def c5stream : List Nat :=
  descRecBytes 1 3 1 42 7 ++ descRecBytes 1 4 1 42 7 ++ descRecBytes 2 3 1 42 7

/-- The spec's S7 record: header length 0x44 and an unrecognized type, 56
payload bytes, trailer length 0x40. -/
def s7stream : List Nat :=
  be32 68 ++ be32 99 ++ (List.replicate 56 0 ++ be32 64)

/-- A TEXT record whose type has ONELINE plus both the PMID and INDOM bits. -/
def c8stream : List Nat := textRecBytes 13 9 [104, 105]

/-- A three-snapshot instance-domain catalog (stamps 30, 20, 10) at indom 5. -/
def exIndomCat : Nat → List LogInDom :=
  fun i =>
    if i = 5 then
      [⟨⟨30, 0⟩, [(1, [97])]⟩, ⟨⟨20, 0⟩, [(1, [97])]⟩, ⟨⟨10, 0⟩, [(1, [97])]⟩]
    else []

/-- Instance list A of the spec's S3 scenario. -/
def exInstsA : List (Int × List Nat) := [(1, [97])]

/-- Instance list B of the spec's S3 scenario (same id, different name). -/
def exInstsB : List (Int × List Nat) := [(1, [98])]

/-- The catalog after inserting A@10 then B@10 at indom 5 (chain is B, A). -/
def exCatAB : Nat → List LogInDom :=
  (addindom (addindom (fun _ => []) 5 ⟨10, 0⟩ exInstsA).2 5 ⟨10, 0⟩ exInstsB).2

/-- A label set with no labels, instance 1 (two such sets are samelabelset
exactly when their instances agree). -/
def exSet1 : PmLabelSet := ⟨1, 0, [], 0, []⟩

/-- A label set with no labels, instance 2. -/
def exSet2 : PmLabelSet := ⟨2, 0, [], 0, []⟩

/-- The label catalog after addlabel of a one-set group at stamp 10 and then
a second one-set group at the same stamp, type 4, ident 9. -/
def exLabCat2 : LabelCat :=
  (addlabel (addlabel (fun _ _ => []) 4 9 1 [exSet1] ⟨10, 0⟩).2 4 9 1 [exSet2] ⟨10, 0⟩).2

/-- Label group at stamp 30 holding only exSet1. -/
def exGX : LogLabelSet := ⟨⟨30, 0⟩, 4, 3, 1, [exSet1]⟩

/-- Label group at stamp 20 holding only exSet2. -/
def exGY : LogLabelSet := ⟨⟨20, 0⟩, 4, 3, 1, [exSet2]⟩

/-- Label group at stamp 10 holding exSet2 and exSet1. -/
def exGYX : LogLabelSet := ⟨⟨10, 0⟩, 4, 3, 2, [exSet2, exSet1]⟩

/-- A label catalog with the two-group chain exGX, exGY at (4, 3). -/
def exLabChainCat : LabelCat :=
  fun t i => if t = 4 ∧ i = 3 then [exGX, exGY] else []

/-- S1's first descriptor: pmid 1, type 3, sem 1, indom 42. -/
def exDesc1 : PmDesc := ⟨1, 3, 1, 42, unitsOfWord 7⟩

/-- S1's conflicting reinsert: the type field changed. -/
def exDesc1b : PmDesc := ⟨1, 4, 1, 42, unitsOfWord 7⟩

/-- A descriptor store holding exDesc1 only. -/
def exDescStore : Nat → Option PmDesc := fun p => if p = 1 then some exDesc1 else none

/-- A load state whose descriptor store already holds exDesc1. -/
def exLoadState : LoadState :=
  ⟨exDescStore, fun _ => [], fun _ _ => [], fun _ _ => none, 0⟩

/- ======================= General lemmas ======================= -/

theorem timestampCmp_self (a : PmTimestamp) : timestampCmp a a = 0 := by
  simp [timestampCmp]

theorem timestampCmp_neg_iff {a b : PmTimestamp} :
    timestampCmp a b < 0 ↔ (a.sec < b.sec ∨ (a.sec = b.sec ∧ a.nsec < b.nsec)) := by
  unfold timestampCmp
  split_ifs <;> constructor <;> intro h <;> first | omega | simp_all | tauto

theorem timestampCmp_zero_iff {a b : PmTimestamp} :
    timestampCmp a b = 0 ↔ a = b := by
  unfold timestampCmp
  constructor
  · intro h
    split_ifs at h <;> first | omega | (cases a; cases b; simp_all; omega)
  · rintro rfl
    simp

theorem timestampCmp_pos_iff {a b : PmTimestamp} :
    0 < timestampCmp a b ↔ (b.sec < a.sec ∨ (b.sec = a.sec ∧ b.nsec < a.nsec)) := by
  unfold timestampCmp
  split_ifs <;> constructor <;> intro h <;> first | omega | simp_all | tauto

theorem timestampCmp_le_iff {a b : PmTimestamp} :
    timestampCmp a b ≤ 0 ↔
      (a.sec < b.sec ∨ (a.sec = b.sec ∧ a.nsec ≤ b.nsec)) := by
  unfold timestampCmp
  split_ifs <;> constructor <;> intro h <;> first | omega | simp_all | tauto

theorem timestampCmp_le_trans {a b c : PmTimestamp}
    (h1 : timestampCmp a b ≤ 0) (h2 : timestampCmp b c ≤ 0) :
    timestampCmp a c ≤ 0 := by
  rw [timestampCmp_le_iff] at *
  rcases h1 with h1 | ⟨h1, h1n⟩ <;> rcases h2 with h2 | ⟨h2, h2n⟩ <;>
    first | (left; omega) | (right; omega)

theorem timestampCmp_lt_of_le_of_lt {a b c : PmTimestamp}
    (h1 : timestampCmp a b ≤ 0) (h2 : timestampCmp b c < 0) :
    timestampCmp a c < 0 := by
  rw [timestampCmp_le_iff] at h1
  rw [timestampCmp_neg_iff] at *
  rcases h1 with h1 | ⟨h1, h1n⟩ <;> rcases h2 with h2 | ⟨h2, h2n⟩ <;>
    first | (left; omega) | (right; omega)

theorem timestampCmp_not_pos_of_neg {a b : PmTimestamp}
    (h : timestampCmp a b < 0) : 0 < timestampCmp b a := by
  rw [timestampCmp_neg_iff] at h
  rw [timestampCmp_pos_iff]
  exact h

theorem timestampCmp_zero_symm {a b : PmTimestamp}
    (h : timestampCmp a b = 0) : timestampCmp b a = 0 := by
  rw [timestampCmp_zero_iff] at h
  rw [h, timestampCmp_self]

theorem sameindom_eq_true_iff {a b : LogInDom} :
    sameindom a b = true ↔ a.insts = b.insts := by
  simp [sameindom]

theorem sameindom_comm (a b : LogInDom) : sameindom a b = sameindom b a := by
  simp only [sameindom]
  rcases h : a.insts == b.insts with _ | _
  · simp only [beq_eq_false_iff_ne, ne_eq] at h
    exact (beq_eq_false_iff_ne.mpr (fun hh => h hh.symm)).symm
  · simp only [beq_iff_eq] at h
    exact (beq_iff_eq.mpr h.symm).symm

/-- In a chain sorted by descending stamp, the first node satisfying the
at-or-earlier predicate has the greatest stamp among all satisfying nodes. -/
theorem find_first_le_is_max (t : PmTimestamp) :
    ∀ l : List LogInDom,
      l.Pairwise (fun a b => timestampCmp b.stamp a.stamp ≤ 0) →
      ∀ r, l.find? (fun g => decide (timestampCmp g.stamp t ≤ 0)) = some r →
      ∀ g ∈ l, timestampCmp g.stamp t ≤ 0 → timestampCmp g.stamp r.stamp ≤ 0 := by
  intro l
  induction l with
  | nil => intro _ r hr; simp at hr
  | cons c rest ih =>
    intro hp r hr g hg hgle
    rw [List.pairwise_cons] at hp
    by_cases hc : timestampCmp c.stamp t ≤ 0
    · rw [List.find?_cons_of_pos _ (by simpa using hc)] at hr
      injection hr with hr
      subst hr
      rcases List.mem_cons.mp hg with rfl | hg2
      · rw [timestampCmp_self]
      · exact hp.1 g hg2
    · rw [List.find?_cons_of_neg _ (by simpa using hc)] at hr
      rcases List.mem_cons.mp hg with rfl | hg2
      · exact absurd hgle hc
      · exact ih hp.2 r hr g hg2 hgle

/-- C1: for an indom whose chain is sorted by descending stamp and non-empty,
searchindom with a timestamp T returns a member snapshot with stamp ≤ T that
has the greatest stamp among such snapshots; when every snapshot is later
than T, __pmLogGetInDom returns PM_ERR_INDOM_LOG; with no timestamp the head
of the chain is returned. -/
theorem c1_searchindom_point_in_time (cat : Nat → List LogInDom) (indom : Nat)
    (t : PmTimestamp)
    (hsorted : (cat indom).Pairwise (fun a b => timestampCmp b.stamp a.stamp ≤ 0))
    (hne : cat indom ≠ []) :
    (∀ r, searchindom cat indom (some t) = some r →
      r ∈ cat indom ∧ timestampCmp r.stamp t ≤ 0 ∧
      ∀ g ∈ cat indom, timestampCmp g.stamp t ≤ 0 →
        timestampCmp g.stamp r.stamp ≤ 0) ∧
    ((∀ g ∈ cat indom, 0 < timestampCmp g.stamp t) →
      pmLogGetInDom cat indom (some t) = (PM_ERR_INDOM_LOG, [])) ∧
    searchindom cat indom none = (cat indom).head? := by
  rcases h : cat indom with _ | ⟨c, rest⟩
  · exact absurd h hne
  · refine ⟨?_, ?_, ?_⟩
    · intro r hr
      simp only [searchindom, h] at hr
      refine ⟨List.mem_of_find?_eq_some hr, by simpa using List.find?_some hr, ?_⟩
      intro g hg hgle
      exact find_first_le_is_max t (c :: rest) (h ▸ hsorted) r hr g hg hgle
    · intro hall
      have hnone : (c :: rest).find? (fun g => decide (timestampCmp g.stamp t ≤ 0)) = none := by
        rw [List.find?_eq_none]
        intro g hg
        simpa using not_le_of_lt (hall g (h ▸ hg))
      simp only [pmLogGetInDom, searchindom, h, hnone]
    · simp only [searchindom, h, List.head?]

/-- Witness for C1 at the S4 catalog (snapshots at stamps 30, 20, 10):
the query at 25 finds the stamp-20 snapshot, and the query at 5 yields
PM_ERR_INDOM_LOG. -/
theorem c1_witness :
    timestampCmp (⟨⟨20, 0⟩, [(1, [97])]⟩ : LogInDom).stamp ⟨25, 0⟩ ≤ 0 ∧
    pmLogGetInDom exIndomCat 5 (some ⟨5, 0⟩) = (PM_ERR_INDOM_LOG, []) := by
  have h25 := c1_searchindom_point_in_time exIndomCat 5 ⟨25, 0⟩ (by decide) (by decide)
  have h5 := c1_searchindom_point_in_time exIndomCat 5 ⟨5, 0⟩ (by decide) (by decide)
  exact ⟨(h25.1 ⟨⟨20, 0⟩, [(1, [97])]⟩ (by decide)).2.1, h5.2.1 (by decide)⟩

/-- The duplicate scan returns the first content-duplicate of the run, with
the run nodes scanned before it. -/
theorem findDupInRun_eq (idp d : LogInDom) (run1 post : List LogInDom)
    (hrun1 : ∀ x ∈ run1, timestampCmp x.stamp idp.stamp = 0 ∧ sameindom x idp = false)
    (hd0 : timestampCmp d.stamp idp.stamp = 0) (hds : sameindom d idp = true) :
    findDupInRun idp (run1 ++ d :: post) = some (run1, d, post) := by
  induction run1 with
  | nil => simp [findDupInRun, hd0, hds]
  | cons x xs ih =>
    have hx := hrun1 x (List.mem_cons_self x xs)
    have ihh := ih (fun y hy => hrun1 y (List.mem_cons_of_mem x hy))
    simp [findDupInRun, hx.1, hx.2, ihh]

/-- The chain walk of addindom on a chain that is a strictly-later prefix,
then an equal-stamp run containing a first duplicate d: the result is the
duplicate status with d relocated to the head of the run. -/
theorem addindomChain_dup (idp d : LogInDom) (pre run1 run2 post : List LogInDom)
    (hpre : ∀ x ∈ pre, 0 < timestampCmp x.stamp idp.stamp)
    (hrun1 : ∀ x ∈ run1, timestampCmp x.stamp idp.stamp = 0 ∧ sameindom x idp = false)
    (hd0 : timestampCmp d.stamp idp.stamp = 0) (hds : sameindom d idp = true) :
    addindomChain idp (pre ++ run1 ++ d :: run2 ++ post) =
      (PMLOGPUTINDOM_DUP, pre ++ d :: run1 ++ run2 ++ post) := by
  induction pre with
  | nil =>
    have hfind : findDupInRun idp (run1 ++ d :: (run2 ++ post)) =
        some (run1, d, run2 ++ post) :=
      findDupInRun_eq idp d run1 (run2 ++ post) hrun1 hd0 hds
    cases run1 with
    | nil =>
      simp only [List.nil_append] at hfind ⊢
      simp [addindomChain, hd0, hfind, if_neg (by omega : ¬ timestampCmp d.stamp idp.stamp < 0)]
    | cons x xs =>
      have hx := hrun1 x (List.mem_cons_self x xs)
      have hshape : (x :: xs) ++ d :: run2 ++ post = x :: (xs ++ d :: (run2 ++ post)) := by
        simp
      simp only [List.nil_append, hshape]
      rw [addindomChain]
      rw [if_neg (by omega : ¬ timestampCmp x.stamp idp.stamp < 0), if_pos hx.1]
      have hfind2 : findDupInRun idp (x :: (xs ++ d :: (run2 ++ post))) =
          some (x :: xs, d, run2 ++ post) := by
        have := hfind
        simpa [List.cons_append] using this
      rw [hfind2]
      simp
  | cons c cs ih =>
    have hc := hpre c (List.mem_cons_self c cs)
    have ihh := ih (fun y hy => hpre y (List.mem_cons_of_mem c hy))
    simp only [List.cons_append]
    rw [addindomChain]
    rw [if_neg (by omega : ¬ timestampCmp c.stamp idp.stamp < 0),
        if_neg (by omega : ¬ timestampCmp c.stamp idp.stamp = 0)]
    simp only [List.append_assoc, List.cons_append] at ihh ⊢
    simp [ihh]

/-- C2: inserting a snapshot whose stamp equals an existing run and whose
sorted instance list is content-equal to some run member returns
PMLOGPUTINDOM_DUP, adds no node, and relocates the first existing duplicate
to the head of its equal-timestamp run (no movement when run1 is empty). -/
theorem c2_addindom_duplicate (cat : Nat → List LogInDom) (indom : Nat)
    (t : PmTimestamp) (insts : List (Int × List Nat))
    (pre run1 run2 post : List LogInDom) (d : LogInDom)
    (hchain : cat indom = pre ++ run1 ++ d :: run2 ++ post)
    (hpre : ∀ x ∈ pre, 0 < timestampCmp x.stamp t)
    (hrun1 : ∀ x ∈ run1, timestampCmp x.stamp t = 0 ∧
      sameindom x ⟨t, addinsts insts⟩ = false)
    (hd0 : timestampCmp d.stamp t = 0)
    (hds : sameindom d ⟨t, addinsts insts⟩ = true) :
    addindom cat indom t insts =
      (PMLOGPUTINDOM_DUP,
       fun j => if j = indom then pre ++ d :: run1 ++ run2 ++ post else cat j) ∧
    (pre ++ d :: run1 ++ run2 ++ post).length = (cat indom).length := by
  have key := addindomChain_dup ⟨t, addinsts insts⟩ d pre run1 run2 post
    hpre hrun1 hd0 hds
  constructor
  · simp only [addindom, hchain, key]
  · simp only [hchain, List.length_append, List.length_cons]
    omega

/-- Witness for C2 at the S3 scenario: the catalog holds B@10, A@10 (in that
order); re-adding A returns DUP and the chain becomes A, B. -/
theorem c2_witness :
    (addindom exCatAB 5 ⟨10, 0⟩ exInstsA).1 = PMLOGPUTINDOM_DUP ∧
    (addindom exCatAB 5 ⟨10, 0⟩ exInstsA).2 5 =
      [⟨⟨10, 0⟩, [(1, [97])]⟩, ⟨⟨10, 0⟩, [(1, [98])]⟩] := by
  have h := c2_addindom_duplicate exCatAB 5 ⟨10, 0⟩ exInstsA
    [] [⟨⟨10, 0⟩, [(1, [98])]⟩] [] [] ⟨⟨10, 0⟩, [(1, [97])]⟩
    (by decide) (by decide) (by decide) (by decide) (by decide)
  refine ⟨?_, ?_⟩
  · rw [h.1]
  · rw [h.1]
    simp

/-- Remaining timestamp comparison facts used by the invariant proof. -/
theorem timestampCmp_neg_of_pos {a b : PmTimestamp}
    (h : 0 < timestampCmp a b) : timestampCmp b a < 0 := by
  rw [timestampCmp_pos_iff] at h
  rw [timestampCmp_neg_iff]
  exact h

/-- A comparison that is neither negative nor zero is positive. -/
theorem timestampCmp_pos_of_not {a b : PmTimestamp}
    (h1 : ¬ timestampCmp a b < 0) (h2 : ¬ timestampCmp a b = 0) :
    0 < timestampCmp a b := by
  omega

/-- Inversion of a failed duplicate scan at a node in the run. -/
theorem findDupInRun_none_inv {idp c : LogInDom} {rest : List LogInDom}
    (hc : timestampCmp c.stamp idp.stamp = 0)
    (hf : findDupInRun idp (c :: rest) = none) :
    sameindom c idp = false ∧ findDupInRun idp rest = none := by
  rw [findDupInRun, if_pos hc] at hf
  rcases hs : sameindom c idp with _ | _
  · rw [hs] at hf
    simp only [Bool.false_eq_true, if_false] at hf
    rcases hrec : findDupInRun idp rest with _ | ⟨⟨pre, d, post⟩⟩
    · exact ⟨rfl, rfl⟩
    · rw [hrec] at hf
      simp at hf
  · rw [hs] at hf
    simp at hf

/-- A failed duplicate scan means no member of the equal-stamp prefix of a
sorted chain is content-equal to the new node; sortedness confines the equal
stamps to that prefix. -/
theorem findDupInRun_none_not_same (idp : LogInDom) :
    ∀ (rest : List LogInDom) (c : LogInDom),
      (c :: rest).Pairwise (fun a b => timestampCmp b.stamp a.stamp ≤ 0) →
      timestampCmp c.stamp idp.stamp = 0 →
      findDupInRun idp (c :: rest) = none →
      ∀ x ∈ c :: rest, timestampCmp x.stamp idp.stamp = 0 → sameindom x idp = false := by
  intro rest
  induction rest with
  | nil =>
    intro c _ hc hf x hx _
    obtain ⟨hcs, _⟩ := findDupInRun_none_inv hc hf
    simp only [List.mem_singleton] at hx
    subst hx
    exact hcs
  | cons y ys ih =>
    intro c hp hc hf x hx hx0
    obtain ⟨hcs, hfr⟩ := findDupInRun_none_inv hc hf
    rcases List.mem_cons.mp hx with rfl | hx2
    · exact hcs
    · by_cases hy : timestampCmp y.stamp idp.stamp = 0
      · exact ih y (List.pairwise_cons.mp hp).2 hy hfr x hx2 hx0
      · exfalso
        rw [List.pairwise_cons] at hp
        have hyc : timestampCmp y.stamp c.stamp ≤ 0 := hp.1 y (List.mem_cons_self y ys)
        have hcst : c.stamp = idp.stamp := timestampCmp_zero_iff.mp hc
        rw [hcst] at hyc
        have hylt : timestampCmp y.stamp idp.stamp < 0 := lt_of_le_of_ne hyc hy
        rcases List.mem_cons.mp hx2 with rfl | hx3
        · omega
        · have hxy : timestampCmp x.stamp y.stamp ≤ 0 :=
            (List.pairwise_cons.mp hp.2).1 x hx3
          have := timestampCmp_lt_of_le_of_lt hxy hylt
          omega

/-- Inversion of a successful duplicate scan: the scanned chain splits at the
duplicate, every node scanned before it carries the new node's stamp, and the
duplicate carries that stamp and the same content. -/
theorem findDupInRun_some_inv (idp : LogInDom) :
    ∀ (l pre post : List LogInDom) (d : LogInDom),
      findDupInRun idp l = some (pre, d, post) →
      l = pre ++ d :: post ∧ (∀ x ∈ pre, timestampCmp x.stamp idp.stamp = 0) ∧
        timestampCmp d.stamp idp.stamp = 0 ∧ sameindom d idp = true := by
  intro l
  induction l with
  | nil => intro pre post d h; simp [findDupInRun] at h
  | cons c rest ih =>
    intro pre post d h
    rw [findDupInRun] at h
    by_cases hc : timestampCmp c.stamp idp.stamp = 0
    · rw [if_pos hc] at h
      rcases hs : sameindom c idp with _ | _
      · rw [hs] at h
        simp only [Bool.false_eq_true, if_false] at h
        rcases hrec : findDupInRun idp rest with _ | ⟨⟨pre2, d2, post2⟩⟩
        · rw [hrec] at h; simp at h
        · rw [hrec] at h
          simp only [Option.some.injEq, Prod.mk.injEq] at h
          obtain ⟨h1, h2, h3⟩ := h
          obtain ⟨hl, hpre2, hd2, hs2⟩ := ih pre2 post2 d2 hrec
          subst h2 h3
          refine ⟨?_, ?_, hd2, hs2⟩
          · rw [← h1, hl]
            simp
          · intro x hx
            rw [← h1] at hx
            rcases List.mem_cons.mp hx with rfl | hx2
            · exact hc
            · exact hpre2 x hx2
      · rw [hs] at h
        simp only [if_true] at h
        simp only [Option.some.injEq, Prod.mk.injEq] at h
        obtain ⟨h1, h2, h3⟩ := h
        subst h2 h3
        rw [← h1]
        exact ⟨by simp, by simp, hc, hs⟩
    · rw [if_neg hc] at h
      simp at h

/-- Every member of the chain produced by the addindom walk is the new node
or a member of the original chain. -/
theorem mem_addindomChain (idp : LogInDom) :
    ∀ (l : List LogInDom) (y : LogInDom),
      y ∈ (addindomChain idp l).2 → y = idp ∨ y ∈ l := by
  intro l
  induction l with
  | nil =>
    intro y hy
    simp [addindomChain] at hy
    exact Or.inl hy
  | cons c rest ih =>
    intro y hy
    rw [addindomChain] at hy
    by_cases h1 : timestampCmp c.stamp idp.stamp < 0
    · rw [if_pos h1] at hy
      simp only [List.mem_cons] at hy
      rcases hy with rfl | rfl | hy2
      · exact Or.inl rfl
      · exact Or.inr (List.mem_cons_self _ _)
      · exact Or.inr (List.mem_cons_of_mem _ hy2)
    · rw [if_neg h1] at hy
      by_cases h2 : timestampCmp c.stamp idp.stamp = 0
      · rw [if_pos h2] at hy
        rcases hrec : findDupInRun idp (c :: rest) with _ | ⟨⟨pre, d, post⟩⟩
        · rw [hrec] at hy
          simp only [List.mem_cons] at hy
          rcases hy with rfl | hy2
          · exact Or.inl rfl
          · exact Or.inr (List.mem_cons.mpr hy2)
        · rw [hrec] at hy
          obtain ⟨hl, _, _, _⟩ := findDupInRun_some_inv idp (c :: rest) pre post d hrec
          simp only [List.mem_cons, List.mem_append] at hy
          rcases hy with rfl | hy2 | hy3
          · refine Or.inr ?_
            rw [hl]
            simp
          · refine Or.inr ?_
            rw [hl]
            simp [hy2]
          · refine Or.inr ?_
            rw [hl]
            simp [hy3]
      · rw [if_neg h2] at hy
        simp only [List.mem_cons] at hy
        rcases hy with rfl | hy2
        · exact Or.inr (List.mem_cons_self _ _)
        · rcases ih y hy2 with h | h
          · exact Or.inl h
          · exact Or.inr (List.mem_cons_of_mem _ h)

/-- The addindom walk preserves the chain invariant. -/
theorem pairwise_addindomChain (idp : LogInDom) :
    ∀ l : List LogInDom, l.Pairwise indomChainRel →
      ((addindomChain idp l).2).Pairwise indomChainRel := by
  intro l
  induction l with
  | nil =>
    intro _
    simp [addindomChain]
  | cons c rest ih =>
    intro hp
    have hsorted : (c :: rest).Pairwise
        (fun a b => timestampCmp b.stamp a.stamp ≤ 0) :=
      hp.imp (fun h => h.1)
    rw [List.pairwise_cons] at hp
    rw [addindomChain]
    by_cases h1 : timestampCmp c.stamp idp.stamp < 0
    · rw [if_pos h1]
      rw [List.pairwise_cons]
      refine ⟨?_, List.pairwise_cons.mpr hp⟩
      intro y hy
      rcases List.mem_cons.mp hy with rfl | hy2
      · refine ⟨le_of_lt h1, ?_⟩
        intro h0
        exfalso
        have := timestampCmp_zero_iff.mp h0
        rw [this, timestampCmp_self] at h1
        omega
      · have hyc : timestampCmp y.stamp c.stamp ≤ 0 := (hp.1 y hy2).1
        have hylt := timestampCmp_lt_of_le_of_lt hyc h1
        refine ⟨le_of_lt hylt, ?_⟩
        intro h0
        exfalso
        have := timestampCmp_zero_iff.mp h0
        rw [this, timestampCmp_self] at hylt
        omega
    · rw [if_neg h1]
      by_cases h2 : timestampCmp c.stamp idp.stamp = 0
      · rw [if_pos h2]
        rcases hrec : findDupInRun idp (c :: rest) with _ | ⟨⟨pre, d, post⟩⟩
        · -- no duplicate found: the new node goes to the head of the run
          have hnots := findDupInRun_none_not_same idp rest c hsorted h2 hrec
          rw [List.pairwise_cons]
          refine ⟨?_, List.pairwise_cons.mpr hp⟩
          intro y hy
          have hcst : c.stamp = idp.stamp := timestampCmp_zero_iff.mp h2
          constructor
          · rcases List.mem_cons.mp hy with rfl | hy2
            · rw [hcst, timestampCmp_self]
            · have hyc : timestampCmp y.stamp c.stamp ≤ 0 := (hp.1 y hy2).1
              rw [hcst] at hyc
              exact hyc
          · intro h0
            have hyst : idp.stamp = y.stamp := timestampCmp_zero_iff.mp h0
            have hy0 : timestampCmp y.stamp idp.stamp = 0 := by
              rw [hyst, timestampCmp_self]
            have := hnots y hy hy0
            rw [sameindom_comm]
            exact this
        · -- duplicate found: relocate d to the head of the run
          obtain ⟨hl, hpre0, hd0, _⟩ := findDupInRun_some_inv idp (c :: rest) pre post d hrec
          have hp2 : (pre ++ d :: post).Pairwise indomChainRel := by
            rw [← hl]
            exact List.pairwise_cons.mpr hp
          rw [List.pairwise_append] at hp2
          obtain ⟨hpre_pw, hdpost_pw, hcross⟩ := hp2
          rw [List.pairwise_cons] at hdpost_pw
          obtain ⟨hd_post, hpost_pw⟩ := hdpost_pw
          rw [List.pairwise_cons]
          constructor
          · intro y hy
            rcases List.mem_append.mp hy with hy2 | hy3
            · -- y was scanned before d in the run: equal stamps, not the same
              have hyd : y.stamp = d.stamp := by
                have h1y := timestampCmp_zero_iff.mp (hpre0 y hy2)
                have h2d := timestampCmp_zero_iff.mp hd0
                rw [h1y, h2d]
              have hr := hcross y hy2 d (List.mem_cons_self d post)
              refine ⟨?_, ?_⟩
              · rw [hyd, timestampCmp_self]
              · intro _
                have hsame : sameindom y d = false := by
                  refine hr.2 ?_
                  rw [hyd, timestampCmp_self]
                rw [sameindom_comm]
                exact hsame
            · exact hd_post y hy3
          · rw [List.pairwise_append]
            refine ⟨hpre_pw, hpost_pw, ?_⟩
            intro x hx y hy
            exact hcross x hx y (List.mem_cons_of_mem d hy)
      · rw [if_neg h2]
        have hpos := timestampCmp_pos_of_not h1 h2
        rw [List.pairwise_cons]
        refine ⟨?_, ih hp.2⟩
        intro y hy
        rcases mem_addindomChain idp rest y hy with rfl | hy2
        · refine ⟨le_of_lt (timestampCmp_neg_of_pos hpos), ?_⟩
          intro h0
          exfalso
          have := timestampCmp_zero_iff.mp h0
          rw [this, timestampCmp_self] at hpos
          omega
        · exact hp.1 y hy2

/-- A run of addindom calls starting from a catalog whose chains satisfy the
invariant keeps it satisfied. -/
theorem pairwise_runAddIndoms :
    ∀ (calls : List (Nat × PmTimestamp × List (Int × List Nat)))
      (cat : Nat → List LogInDom),
      (∀ i, (cat i).Pairwise indomChainRel) →
      ∀ i, ((runAddIndoms calls cat) i).Pairwise indomChainRel := by
  intro calls
  induction calls with
  | nil => intro cat h i; exact h i
  | cons c rest ih =>
    intro cat h i
    rw [runAddIndoms]
    refine ih _ ?_ i
    intro j
    simp only [addindom]
    by_cases hj : j = c.1
    · subst hj
      simp only [if_pos rfl]
      exact pairwise_addindomChain _ _ (h c.1)
    · simp only [if_neg hj]
      exact h j

/-- C3: every per-indom chain obtained by a sequence of addindom calls from
the empty catalog satisfies, at each adjacent pair (a, b): b's stamp is not
later than a's, and nodes with equal stamps are not content-equal (content
equality compares the instance pairs of the stored, id-sorted lists). -/
theorem c3_addindom_chain_invariant
    (calls : List (Nat × PmTimestamp × List (Int × List Nat))) (indom : Nat) :
    ((runAddIndoms calls (fun _ => [])) indom).Chain' indomChainRel := by
  have h := pairwise_runAddIndoms calls (fun _ => []) (fun _ => List.Pairwise.nil) indom
  exact h.chain'

/-- C4 counterexample: inserting a descriptor under an absent pmid stores it
but returns the hash-insert success status 1, not 0 as the claim states. -/
theorem c4_counterexample :
    (pmLogAddDesc exDesc1 (fun _ => none)).1 = pmHashAddOk ∧
    (pmLogAddDesc exDesc1 (fun _ => none)).1 ≠ 0 ∧
    (pmLogAddDesc exDesc1 (fun _ => none)).2 1 = some exDesc1 := by
  refine ⟨rfl, by decide, by decide⟩

/-- C4 amended: an absent pmid stores a copy and returns the hash-insert
success status (1, a non-negative status that is not 0); a present pmid
leaves the store unchanged and yields the first mismatching field group's
error in the order type, sem, indom, units, or 0 when every field matches. -/
theorem c4_amended (store : Nat → Option PmDesc) (newdp : PmDesc) :
    (store newdp.pmid = none →
      pmLogAddDesc newdp store =
        (pmHashAddOk, fun p => if p = newdp.pmid then some newdp else store p) ∧
      pmHashAddOk ≠ 0 ∧ 0 ≤ pmHashAddOk) ∧
    (∀ olddp, store newdp.pmid = some olddp →
      (pmLogAddDesc newdp store).2 = store ∧
      (pmLogAddDesc newdp store).1 =
        (if newdp.type ≠ olddp.type then PM_ERR_LOGCHANGETYPE
         else if newdp.sem ≠ olddp.sem then PM_ERR_LOGCHANGESEM
         else if newdp.indom ≠ olddp.indom then PM_ERR_LOGCHANGEINDOM
         else if newdp.units.dimSpace ≠ olddp.units.dimSpace ∨
                 newdp.units.dimTime ≠ olddp.units.dimTime ∨
                 newdp.units.dimCount ≠ olddp.units.dimCount ∨
                 newdp.units.scaleSpace ≠ olddp.units.scaleSpace ∨
                 newdp.units.scaleTime ≠ olddp.units.scaleTime ∨
                 newdp.units.scaleCount ≠ olddp.units.scaleCount then
           PM_ERR_LOGCHANGEUNITS
         else 0)) := by
  constructor
  · intro h
    refine ⟨?_, by decide, by decide⟩
    simp only [pmLogAddDesc, h]
  · intro olddp h
    simp only [pmLogAddDesc, h]
    split_ifs <;> simp_all

/-- Witness for C4 at the S1 scenario: reinserting pmid 1 with a changed type
yields PM_ERR_LOGCHANGETYPE and leaves the store unchanged. -/
theorem c4_witness :
    (pmLogAddDesc exDesc1b exDescStore).1 = PM_ERR_LOGCHANGETYPE ∧
    (pmLogAddDesc exDesc1b exDescStore).2 = exDescStore := by
  have h := (c4_amended exDescStore exDesc1b).2 exDesc1 (by decide)
  refine ⟨?_, h.1⟩
  rw [h.2]
  decide

/-- C6 counterexample: with one cached group at stamp 10, addlabel of a
second group at the same stamp places the new group after the cached one,
not before it as the claim states. -/
theorem c6_counterexample :
    exLabCat2 4 9 = [⟨⟨10, 0⟩, 4, 9, 1, [exSet1]⟩, ⟨⟨10, 0⟩, 4, 9, 1, [exSet2]⟩] ∧
    exLabCat2 4 9 ≠ [⟨⟨10, 0⟩, 4, 9, 1, [exSet2]⟩, ⟨⟨10, 0⟩, 4, 9, 1, [exSet1]⟩] := by
  decide

/-- The addlabel chain walk inserts before the first strictly earlier group,
hence after every group whose stamp is not earlier (equal stamps included). -/
theorem addlabelChain_insert (idp : LogLabelSet) :
    ∀ (pre post : List LogLabelSet),
      (∀ x ∈ pre, 0 ≤ timestampCmp x.stamp idp.stamp) →
      (∀ c, post.head? = some c → timestampCmp c.stamp idp.stamp < 0) →
      addlabelChain idp (pre ++ post) = pre ++ idp :: post := by
  intro pre
  induction pre with
  | nil =>
    intro post _ hpost
    cases post with
    | nil => simp [addlabelChain]
    | cons c r =>
      have hc := hpost c rfl
      simp [addlabelChain, hc]
  | cons x xs ih =>
    intro post hpre hpost
    have hx := hpre x (List.mem_cons_self x xs)
    simp only [List.cons_append, addlabelChain]
    rw [if_neg (by omega)]
    have := ih post (fun y hy => hpre y (List.mem_cons_of_mem x hy)) hpost
    simp only [List.append_eq] at this ⊢
    rw [this]

/-- C6 amended: for an existing (type, ident) chain (head group with a
positive set count), addlabel inserts the new group at the first position
where the cached group's stamp is strictly less than the new stamp; groups
with an equal stamp are passed over, so the new group lands after them
(existing groups first, not new first). -/
theorem c6_amended (cat : LabelCat) (type ident : Nat) (nsets : Int)
    (sets : List PmLabelSet) (stamp : PmTimestamp)
    (pre post : List LogLabelSet) (c0 : LogLabelSet)
    (hchain : cat (labelType type) (labelIdent type ident) = pre ++ post)
    (hhead : (pre ++ post).head? = some c0) (hnsets : 0 < c0.nsets)
    (hpre : ∀ x ∈ pre, 0 ≤ timestampCmp x.stamp stamp)
    (hpost : ∀ c, post.head? = some c → timestampCmp c.stamp stamp < 0) :
    (addlabel cat type ident nsets sets stamp).2
        (labelType type) (labelIdent type ident) =
      pre ++ (⟨stamp, type, ident, nsets, sets⟩ : LogLabelSet) :: post ∧
    (addlabel cat type ident nsets sets stamp).1 = 0 := by
  rcases hl : pre ++ post with _ | ⟨c, rest⟩
  · rw [hl] at hhead
    simp at hhead
  · rw [hl] at hhead
    simp only [List.head?_cons, Option.some.injEq] at hhead
    subst hhead
    have hkey : addlabelChain (⟨stamp, type, ident, nsets, sets⟩ : LogLabelSet)
        (c :: rest) = pre ++ (⟨stamp, type, ident, nsets, sets⟩ : LogLabelSet) :: post := by
      rw [← hl]
      exact addlabelChain_insert _ pre post hpre hpost
    simp only [addlabel, hchain, hl]
    rw [if_neg (by omega : ¬ c.nsets ≤ 0)]
    simp [hkey]

/-- Witness for C6: inserting a group at stamp 20 into the chain holding
groups at stamps 30 and 20 places it after both cached groups. -/
theorem c6_witness :
    (addlabel exLabChainCat 4 3 1 [exSet1] ⟨20, 0⟩).2 (labelType 4) (labelIdent 4 3) =
      [exGX, exGY, ⟨⟨20, 0⟩, 4, 3, 1, [exSet1]⟩] := by
  have h := c6_amended exLabChainCat 4 3 1 [exSet1] ⟨20, 0⟩ [exGX, exGY] [] exGX
    (by decide) (by decide) (by decide) (by decide)
    (fun c hc => by simp at hc)
  simpa using h.1

/-- C7 counterexample: with the chain exGX (set for inst 1) at stamp 30,
exGY (set for inst 2) at stamp 20, exGYX (both sets) at stamp 10, the dedup
pass empties and unlinks the middle group, leaving two adjacent groups that
still share a content-equal set. -/
theorem c7_counterexample :
    checkDupChain [exGX, exGY, exGYX] = [exGX, exGYX] ∧
    exSet1 ∈ exGX.labelsets ∧ exSet1 ∈ exGYX.labelsets ∧
    samelabelset exSet1 exSet1 = true := by
  decide

/-- After discarding against the next group, no surviving set of a
well-formed group matches any compared set of that next group. -/
theorem discard_no_match (g gnext : LogLabelSet)
    (hwf : g.nsets = (g.labelsets.length : Int)) :
    ∀ s ∈ (discard_dup_labelsets g gnext).labelsets,
      ∀ s2 ∈ gnext.labelsets.take gnext.nsets.toNat, samelabelset s s2 = false := by
  intro s hs s2 hs2
  have htn : g.nsets.toNat = g.labelsets.length := by
    rw [hwf]
    exact Int.toNat_natCast _
  simp only [discard_dup_labelsets, htn, List.take_length, List.drop_length,
    List.append_nil] at hs
  have hp := List.of_mem_filter hs
  simp only [Bool.not_eq_eq_eq_not, Bool.not_true, List.any_eq_false] at hp
  simpa using hp s2 hs2

/-- The dedup pass keeps a non-empty result whose head's sets come from the
original head group. -/
theorem checkDupChain_head :
    ∀ (r : List LogLabelSet) (x : LogLabelSet),
      (x :: r).Chain' (fun a b => (discard_dup_labelsets a b).nsets ≠ 0) →
      ∃ hd tl, checkDupChain (x :: r) = hd :: tl ∧ hd.labelsets ⊆ x.labelsets := by
  intro r x hc
  cases r with
  | nil => exact ⟨x, [], rfl, fun s hs => hs⟩
  | cons y ys =>
    rw [List.chain'_cons] at hc
    refine ⟨discard_dup_labelsets x y, checkDupChain (y :: ys), ?_, ?_⟩
    · simp [checkDupChain, hc.1]
    · intro s hs
      simp only [discard_dup_labelsets] at hs
      rcases List.mem_append.mp hs with h | h
      · exact List.take_subset _ _ (List.mem_of_mem_filter h)
      · exact List.drop_subset _ _ h

/-- The dedup pass establishes the no-shared-set relation at every adjacent
pair, provided no group's set count drops to zero during the pass. -/
theorem checkDupChain_chain' :
    ∀ chain : List LogLabelSet,
      (∀ g ∈ chain, g.nsets = (g.labelsets.length : Int)) →
      chain.Chain' (fun a b => (discard_dup_labelsets a b).nsets ≠ 0) →
      (checkDupChain chain).Chain' noSharedSet := by
  intro chain
  induction chain with
  | nil => intro _ _; simp [checkDupChain]
  | cons g rest ih =>
    intro hwf hne
    cases rest with
    | nil => simp [checkDupChain]
    | cons gnext rest2 =>
      rw [List.chain'_cons] at hne
      obtain ⟨hd, tl, hck, hsub⟩ := checkDupChain_head rest2 gnext hne.2
      have hrec : (checkDupChain (gnext :: rest2)).Chain' noSharedSet := by
        refine ih (fun y hy => hwf y (List.mem_cons_of_mem g hy)) hne.2
      simp only [checkDupChain, if_neg hne.1]
      rw [hck] at hrec ⊢
      rw [List.chain'_cons]
      refine ⟨?_, hrec⟩
      intro s hs s2 hs2
      have hgnwf : gnext.nsets.toNat = gnext.labelsets.length := by
        rw [hwf gnext (List.mem_cons_of_mem g (List.mem_cons_self gnext rest2))]
        exact Int.toNat_natCast _
      have hs2t : s2 ∈ gnext.labelsets.take gnext.nsets.toNat := by
        rw [hgnwf, List.take_length]
        exact hsub hs2
      exact discard_no_match g gnext (hwf g (List.mem_cons_self g _)) s hs s2 hs2t

/-- C7 amended: after check_dup_labels, in any chain where no group's set
count dropped to zero during the pass, no LabelSet of a group is
content-equal to any LabelSet of its adjacent older neighbour; a group whose
set count does drop to zero is unlinked from the chain (and freed) - and its
former neighbours then become adjacent without being re-compared, so the
adjacent-pair property is not guaranteed across an unlink. -/
theorem c7_amended :
    (∀ chain : List LogLabelSet,
      (∀ g ∈ chain, g.nsets = (g.labelsets.length : Int)) →
      chain.Chain' (fun a b => (discard_dup_labelsets a b).nsets ≠ 0) →
      (checkDupChain chain).Chain' noSharedSet) ∧
    (∀ (g gnext : LogLabelSet) (rest : List LogLabelSet),
      (discard_dup_labelsets g gnext).nsets = 0 →
      checkDupChain (g :: gnext :: rest) = checkDupChain (gnext :: rest)) := by
  refine ⟨checkDupChain_chain', ?_⟩
  intro g gnext rest h
  simp [checkDupChain, h]

/-- Witness for C7 on the chain exGX, exGY (no group empties): after the
pass, adjacent groups share no content-equal set. -/
theorem c7_witness : (checkDupChain [exGX, exGY]).Chain' noSharedSet :=
  c7_amended.1 [exGX, exGY] (by decide) (List.chain'_pair.mpr (by decide))

/-- C10: for an existing (type, ident) label chain, a timestamped lookup
earlier than every group's stamp returns status 0 with the out-pointer unset,
distinct from the PM_ERR_NOLABELS returned when no chain exists at all. -/
theorem c10_lookup_label_early_timestamp (cat : LabelCat) (type ident : Nat)
    (t : PmTimestamp)
    (hne : cat (labelType type) (labelIdent type ident) ≠ [])
    (hall : ∀ g ∈ cat (labelType type) (labelIdent type ident),
      0 < timestampCmp g.stamp t) :
    pmLogLookupLabel cat type ident (some t) = (0, none) ∧
    (0 : Int) ≠ PM_ERR_NOLABELS ∧
    (∀ cat2 : LabelCat, cat2 (labelType type) (labelIdent type ident) = [] →
      pmLogLookupLabel cat2 type ident (some t) = (PM_ERR_NOLABELS, none)) := by
  rcases h : cat (labelType type) (labelIdent type ident) with _ | ⟨c, rest⟩
  · exact absurd h hne
  · refine ⟨?_, by decide, ?_⟩
    · have hnone : (c :: rest).find?
          (fun g => decide (timestampCmp g.stamp t ≤ 0)) = none := by
        rw [List.find?_eq_none]
        intro g hg
        simpa using not_le_of_lt (hall g (h ▸ hg))
      simp only [pmLogLookupLabel, h, hnone]
    · intro cat2 h2
      simp only [pmLogLookupLabel, h2]

/-- Witness for C10: the chain at (4, 3) holds stamps 30 and 20; the lookup
at 5 returns status 0 with no sets. -/
theorem c10_witness :
    pmLogLookupLabel exLabChainCat 4 3 (some ⟨5, 0⟩) = (0, none) :=
  (c10_lookup_label_early_timestamp exLabChainCat 4 3 ⟨5, 0⟩
    (by decide) (by decide)).1

/-- Decoding a big-endian encoded 32-bit word yields the word and the rest
of the stream. -/
theorem rd32_be32 (w : Nat) (r : List Nat) (h : w < 4294967296) :
    rd32 (be32 w ++ r) = some (w, r) := by
  simp only [be32, List.cons_append, List.nil_append, rd32, Option.some.injEq,
    Prod.mk.injEq, and_true]
  omega

/-- Small words are their own int value. -/
theorem toInt32_small {w : Nat} (h : w < 2147483648) : toInt32 w = (w : Int) := by
  simp [toInt32, h]

/-- rdDesc on an encoded descriptor payload. -/
theorem rdDesc_encode (pmid tw sw iw uw : Nat) (r : List Nat)
    (h1 : pmid < 4294967296) (h2 : tw < 4294967296) (h3 : sw < 4294967296)
    (h4 : iw < 4294967296) (h5 : uw < 4294967296) :
    rdDesc (be32 pmid ++ (be32 tw ++ (be32 sw ++ (be32 iw ++ (be32 uw ++ r))))) =
      some (⟨pmid, toInt32 tw, toInt32 sw, iw, unitsOfWord uw⟩, r) := by
  simp only [rdDesc, rd32_be32 _ _ h1, rd32_be32 _ _ h2, rd32_be32 _ _ h3,
    rd32_be32 _ _ h4, rd32_be32 _ _ h5]

/-- An fread of exactly the first list succeeds and leaves the rest. -/
theorem takeRead_exact {l : List Nat} {n : Nat} (r : List Nat) (h : l.length = n) :
    takeRead n (l ++ r) = some (l, r) := by
  subst h
  rw [takeRead, if_neg (by simp), List.take_left, List.drop_left]

/-- An in-buffer word read at offset 0 of a cons-shaped buffer. -/
theorem rd32At_cons_zero (b0 b1 b2 b3 : Nat) (r : List Nat) :
    rd32At (b0 :: b1 :: b2 :: b3 :: r) 0 = ((b0 * 256 + b1) * 256 + b2) * 256 + b3 := rfl

/-- An in-buffer word read past four leading bytes. -/
theorem rd32At_cons_add4 (b0 b1 b2 b3 : Nat) (r : List Nat) (k : Nat) :
    rd32At (b0 :: b1 :: b2 :: b3 :: r) (k + 4) = rd32At r k := rfl

/-- Reading the first word of a two-word-headed buffer. -/
theorem rd32At_words_zero (a b : Nat) (r : List Nat) (h : a < 4294967296) :
    rd32At (be32 a ++ (be32 b ++ r)) 0 = a := by
  simp only [be32, List.cons_append, List.nil_append, rd32At_cons_zero]
  omega

/-- Reading the second word of a two-word-headed buffer. -/
theorem rd32At_words_four (a b : Nat) (r : List Nat) (h : b < 4294967296) :
    rd32At (be32 a ++ (be32 b ++ r)) 4 = b := by
  simp only [be32, List.cons_append, List.nil_append]
  rw [show (4 : Nat) = 0 + 4 from rfl, rd32At_cons_add4, rd32At_cons_zero]
  omega

/-- The NUL-terminated string past the two header words of a TEXT payload. -/
theorem cstrAt_words_eight (a b : Nat) (r : List Nat) :
    cstrAt (be32 a ++ (be32 b ++ r)) 8 = r.takeWhile (fun x => x ≠ 0) := by
  simp only [be32, List.cons_append, List.nil_append, cstrAt, List.drop,
    List.append_eq, List.nil_append]

/-- A NUL-free byte string followed by its terminator reads back exactly. -/
theorem takeWhile_append_nul (txt : List Nat) (h : ∀ b ∈ txt, b ≠ 0) :
    (txt ++ [0]).takeWhile (fun x => decide (x ≠ 0)) = txt := by
  induction txt with
  | nil => simp [List.takeWhile]
  | cons b bs ih =>
    have hb := h b (List.mem_cons_self b bs)
    simp only [List.cons_append, List.takeWhile, decide_eq_true (by simpa using hb : b ≠ 0)]
    simp only [List.append_eq]
    rw [ih (fun y hy => h y (List.mem_cons_of_mem b hy))]

/-- C5 counterexample: in the stream desc(pmid 1), conflicting desc(pmid 1,
changed type), desc(pmid 2), the conflict makes the whole load return
PM_ERR_LOGCHANGETYPE and pmid 2 is never stored - the loader does not
continue with the subsequent records. -/
theorem c5_counterexample :
    (pmLogLoadMeta c5stream).1 = PM_ERR_LOGCHANGETYPE ∧
    (pmLogLoadMeta c5stream).2.descs 2 = none ∧
    (pmLogLoadMeta c5stream).2.descs 1 = some ⟨1, 3, 1, 42, unitsOfWord 7⟩ := by
  refine ⟨by decide, by decide, by decide⟩

set_option maxRecDepth 10000 in
/-- C5 amended: a descriptor-field-change error from __pmLogAddDesc aborts
the whole load at that record: the loop returns the error at once, whatever
records follow, with only numpmid advanced. -/
theorem c5_amended (fuel : Nat) (st : LoadState) (rest : List Nat)
    (pmid typew semw indomw unitsw : Nat) (olddp : PmDesc)
    (h1 : pmid < 4294967296) (h2 : typew < 4294967296) (h3 : semw < 4294967296)
    (h4 : indomw < 4294967296) (h5 : unitsw < 4294967296)
    (hold : st.descs pmid = some olddp)
    (htype : toInt32 typew ≠ olddp.type) :
    loadLoop (fuel + 1) (descRecBytes pmid typew semw indomw unitsw ++ rest) st =
      (PM_ERR_LOGCHANGETYPE, { st with numpmid := st.numpmid + 1 }) := by
  simp only [descRecBytes, List.append_assoc]
  rw [loadLoop]
  rw [rd32_be32 36 _ (by norm_num)]
  simp only []
  rw [rd32_be32 TYPE_DESC _ (by norm_num [TYPE_DESC])]
  simp only []
  rw [if_neg (by norm_num [toInt32] : ¬ (toInt32 (36 : Nat) ≤ 0))]
  have hdesc := rdDesc_encode pmid typew semw indomw unitsw
    (be32 0 ++ (be32 36 ++ rest)) h1 h2 h3 h4 h5
  have hproc : processRec TYPE_DESC ((toInt32 (36 : Nat) - 12).toNat)
      (be32 pmid ++ (be32 typew ++ (be32 semw ++ (be32 indomw ++ (be32 unitsw ++
        (be32 0 ++ (be32 36 ++ rest))))))) st =
      StepRes.abort PM_ERR_LOGCHANGETYPE { st with numpmid := st.numpmid + 1 } := by
    rw [processRec, if_pos rfl]
    simp only []
    rw [hdesc]
    simp only []
    have had : pmLogAddDesc
        (⟨pmid, toInt32 typew, toInt32 semw, indomw, unitsOfWord unitsw⟩ : PmDesc)
        st.descs = (PM_ERR_LOGCHANGETYPE, st.descs) := by
      simp only [pmLogAddDesc, hold]
      rw [if_pos htype]
    rw [had]
    simp only []
    rw [if_pos (by norm_num [PM_ERR_LOGCHANGETYPE] : (PM_ERR_LOGCHANGETYPE : Int) < 0)]
  rw [hproc]

/-- Witness for C5 with the catalog already holding pmid 1 with type 3: the
conflicting record (type word 4) aborts at once even with further bytes
following. -/
theorem c5_witness :
    loadLoop 1 (descRecBytes 1 4 1 42 7 ++ descRecBytes 2 3 1 42 7) exLoadState =
      (PM_ERR_LOGCHANGETYPE, { exLoadState with numpmid := 1 }) := by
  exact c5_amended 0 exLoadState (descRecBytes 2 3 1 42 7) 1 4 1 42 7 exDesc1
    (by norm_num) (by norm_num) (by norm_num) (by norm_num) (by norm_num)
    (by decide) (by decide)

/-- A stream of fewer than four bytes cannot supply a 32-bit word. -/
theorem rd32_eq_none {l : List Nat} (h : l.length < 4) : rd32 l = none := by
  rcases l with _ | ⟨a, _ | ⟨b, _ | ⟨c, _ | ⟨d, r⟩⟩⟩⟩
  · rfl
  · rfl
  · rfl
  · rfl
  · simp only [List.length_cons] at h
    omega

set_option maxRecDepth 10000 in
/-- C9: after any record body that falls through to the trailer check, a
4-byte trailer different from the header length - or a trailer read of fewer
than four bytes - makes the load abort with PM_ERR_LOGREC. -/
theorem c9_trailer_mismatch :
    (∀ (fuel : Nat) (st st2 : LoadState) (lenw typew checkw : Nat)
       (body rest2 : List Nat),
      lenw < 4294967296 → typew < 4294967296 → checkw < 4294967296 →
      0 < toInt32 lenw →
      processRec typew (toInt32 lenw - 12).toNat body st =
        StepRes.toTrailer (be32 checkw ++ rest2) st2 →
      checkw ≠ lenw →
      loadLoop (fuel + 1) (be32 lenw ++ (be32 typew ++ body)) st =
        (PM_ERR_LOGREC, st2)) ∧
    (∀ (fuel : Nat) (st st2 : LoadState) (lenw typew : Nat) (body tr : List Nat),
      lenw < 4294967296 → typew < 4294967296 → 0 < toInt32 lenw →
      processRec typew (toInt32 lenw - 12).toNat body st = StepRes.toTrailer tr st2 →
      tr.length < 4 →
      loadLoop (fuel + 1) (be32 lenw ++ (be32 typew ++ body)) st =
        (PM_ERR_LOGREC, st2)) := by
  constructor
  · intro fuel st st2 lenw typew checkw body rest2 hlw htw hcw hpos hproc hmm
    rw [loadLoop]
    rw [rd32_be32 lenw _ hlw]
    simp only []
    rw [rd32_be32 typew _ htw]
    simp only []
    rw [if_neg (by omega)]
    rw [hproc]
    simp only []
    rw [rd32_be32 checkw _ hcw]
    simp only []
    rw [if_neg hmm]
  · intro fuel st st2 lenw typew body tr hlw htw hpos hproc hshort
    rw [loadLoop]
    rw [rd32_be32 lenw _ hlw]
    simp only []
    rw [rd32_be32 typew _ htw]
    simp only []
    rw [if_neg (by omega)]
    rw [hproc]
    simp only []
    rw [rd32_eq_none hshort]

/-- Witness for C9 at the spec's S7 record: header length 0x44, unknown type,
trailer 0x40 - the load aborts with PM_ERR_LOGREC. -/
theorem c9_witness : loadLoop 1 s7stream initState = (PM_ERR_LOGREC, initState) := by
  have h := c9_trailer_mismatch.1 0 initState initState 68 99 64
    (List.replicate 56 0 ++ be32 64) []
    (by norm_num) (by norm_num) (by norm_num) (by norm_num [toInt32]) (by rfl)
    (by norm_num)
  rw [s7stream]
  simpa using h

/-- addtext never fails in the model (allocation is not modelled). -/
theorem addtext_fst (texts : TextCat) (ident ttype : Nat) (buffer : List Nat) :
    (addtext texts ident ttype buffer).1 = 0 := by
  unfold addtext
  split
  · rfl
  · split <;> rfl

set_option maxRecDepth 10000 in
/-- The TEXT dispatch on a well-formed TEXT payload: records failing the
ONELINE/HELP test or carrying neither identifier bit continue without the
trailer; otherwise the text is stored (INDOM bit checked first) and control
falls through to the trailer. -/
theorem processRec_text (st : LoadState) (ttype ident : Nat) (txt tail : List Nat)
    (ht : ttype < 4294967296) (hi : ident < 4294967296) :
    processRec TYPE_TEXT (9 + txt.length)
      ((be32 ttype ++ (be32 ident ++ (txt ++ [0]))) ++ tail) st =
      (if ttype &&& (PM_TEXT_ONELINE ||| PM_TEXT_HELP) = 0 then
        StepRes.skipText tail st
      else if ttype &&& PM_TEXT_INDOM ≠ 0 then
        StepRes.toTrailer tail { st with texts :=
          (addtext st.texts ident ttype ((txt ++ [0]).takeWhile (fun x => x ≠ 0))).2 }
      else if ttype &&& PM_TEXT_PMID ≠ 0 then
        StepRes.toTrailer tail { st with texts :=
          (addtext st.texts ident ttype ((txt ++ [0]).takeWhile (fun x => x ≠ 0))).2 }
      else StepRes.skipText tail st) := by
  rw [processRec]
  rw [if_neg (by norm_num [TYPE_TEXT, TYPE_DESC])]
  rw [if_neg (by norm_num [TYPE_TEXT, TYPE_INDOM, TYPE_INDOM_V2])]
  rw [if_neg (by norm_num [TYPE_TEXT, TYPE_LABEL, TYPE_LABEL_V2])]
  rw [if_pos rfl]
  rw [takeRead_exact tail (by simp [be32]; omega)]
  simp only []
  rw [rd32At_words_zero ttype ident (txt ++ [0]) ht]
  rw [rd32At_words_four ttype ident (txt ++ [0]) hi]
  rw [cstrAt_words_eight ttype ident (txt ++ [0])]
  simp only [addtext_fst]
  norm_num

set_option maxRecDepth 10000 in
/-- C8 amended: a TEXT record whose type lacks both ONELINE and HELP, or has
neither the PMID nor the INDOM bit, is skipped without storing text and
without an error status - but the skip bypasses the trailer read, so the
loader resumes at the skipped record's own trailer bytes (the stream is left
misaligned by four bytes).  A record with both PMID and INDOM set is not
skipped: it is stored as INDOM text and the trailer is consumed normally. -/
theorem c8_text_skip (fuel : Nat) (st : LoadState) (ttype ident : Nat)
    (txt rest : List Nat)
    (ht : ttype < 4294967296) (hi : ident < 4294967296)
    (hl : 21 + txt.length < 2147483648) :
    (ttype &&& (PM_TEXT_ONELINE ||| PM_TEXT_HELP) = 0 →
      loadLoop (fuel + 1) (textRecBytes ttype ident txt ++ rest) st =
        loadLoop fuel (be32 (21 + txt.length) ++ rest) st) ∧
    (ttype &&& (PM_TEXT_ONELINE ||| PM_TEXT_HELP) ≠ 0 →
      ttype &&& PM_TEXT_INDOM = 0 → ttype &&& PM_TEXT_PMID = 0 →
      loadLoop (fuel + 1) (textRecBytes ttype ident txt ++ rest) st =
        loadLoop fuel (be32 (21 + txt.length) ++ rest) st) ∧
    (ttype &&& (PM_TEXT_ONELINE ||| PM_TEXT_HELP) ≠ 0 →
      ttype &&& PM_TEXT_INDOM ≠ 0 → (∀ b ∈ txt, b ≠ 0) →
      loadLoop (fuel + 1) (textRecBytes ttype ident txt ++ rest) st =
        loadLoop fuel rest
          { st with texts := (addtext st.texts ident ttype txt).2 }) := by
  have hlw : 21 + txt.length < 4294967296 := by omega
  have hpos : ¬ (toInt32 (21 + txt.length) ≤ 0) := by
    rw [toInt32_small hl]
    omega
  have hrlen : (toInt32 (21 + txt.length) - 12).toNat = 9 + txt.length := by
    rw [toInt32_small hl]
    omega
  have hshape : be32 ttype ++ (be32 ident ++ (txt ++ ([0] ++
      (be32 (21 + txt.length) ++ rest)))) =
      (be32 ttype ++ (be32 ident ++ (txt ++ [0]))) ++
        (be32 (21 + txt.length) ++ rest) := by
    simp [List.append_assoc]
  have hstep : ∀ stx : LoadState,
      loadLoop (fuel + 1) (textRecBytes ttype ident txt ++ rest) stx =
      (match processRec TYPE_TEXT (9 + txt.length)
          ((be32 ttype ++ (be32 ident ++ (txt ++ [0]))) ++
            (be32 (21 + txt.length) ++ rest)) stx with
       | StepRes.abort sts st2 => (sts, st2)
       | StepRes.skipText r2 st2 => loadLoop fuel r2 st2
       | StepRes.toTrailer r2 st2 =>
         match rd32 r2 with
         | none => (PM_ERR_LOGREC, st2)
         | some (checkw, rest2) =>
           if checkw = 21 + txt.length then loadLoop fuel rest2 st2
           else (PM_ERR_LOGREC, st2)) := by
    intro stx
    simp only [textRecBytes, List.append_assoc]
    rw [loadLoop]
    rw [rd32_be32 (21 + txt.length) _ hlw]
    simp only []
    rw [rd32_be32 TYPE_TEXT _ (by norm_num [TYPE_TEXT])]
    simp only []
    rw [if_neg hpos, hrlen, hshape]
  refine ⟨?_, ?_, ?_⟩
  · intro h3
    rw [hstep st, processRec_text st ttype ident txt _ ht hi, if_pos h3]
  · intro h3 h8 h4
    rw [hstep st, processRec_text st ttype ident txt _ ht hi, if_neg h3,
      if_neg (by omega : ¬ ttype &&& PM_TEXT_INDOM ≠ 0),
      if_neg (by omega : ¬ ttype &&& PM_TEXT_PMID ≠ 0)]
  · intro h3 h8 htxt
    rw [hstep st, processRec_text st ttype ident txt _ ht hi, if_neg h3, if_pos h8]
    simp only []
    rw [rd32_be32 (21 + txt.length) _ hlw]
    simp only []
    simp only [if_true]
    rw [takeWhile_append_nul txt htxt]

/-- C8 counterexample: a TEXT record with type bits ONELINE, PMID and INDOM
all set (13) does not have exactly one of PMID and INDOM, yet the loader does
not skip it: the text is stored (under the INDOM identity path). -/
theorem c8_counterexample :
    (13 : Nat) &&& PM_TEXT_PMID ≠ 0 ∧ (13 : Nat) &&& PM_TEXT_INDOM ≠ 0 ∧
    (pmLogLoadMeta c8stream).2.texts 13 9 = some [104, 105] := by
  refine ⟨by decide, by decide, by decide⟩

/-- Witness for C8: a TEXT record with only the DIRECT bit set (16) is
skipped, and the loop resumes at the skipped record's own trailer bytes. -/
theorem c8_witness :
    loadLoop 1 (textRecBytes 16 9 [104] ++ []) initState =
      loadLoop 0 (be32 (21 + [104].length) ++ []) initState :=
  (c8_text_skip 0 initState 16 9 [104] [] (by norm_num) (by norm_num)
    (by norm_num)).1 (by decide)

end LogMeta
